import Mathlib

/-!
Verification of the coordination core of the `ecs` crate: the dual-aspect
interaction system (`src/system/interactsystem.rs`), the `aspect!`,
`components!` and `systems!` macros and the `EntityData` gateway
(`src/lib.rs`).  Rust state is embedded by explicit state passing; calls
forwarded to inner systems are recorded as event traces.
-/

/-- Entity from the source crate: an opaque identifier that dereferences to a
numeric identity (`**entity` in the Rust source). -/
structure Entity where
  id : Nat
deriving DecidableEq, Repr

/-- Notification kinds a system can forward to an inner routine. -/
inductive Ev where
  | activated
  | reactivated
  | deactivated
deriving DecidableEq, Repr

/-! ### TrieMap model

`std::collections::TrieMap<Entity>` maps a `uint` key to an `Entity` value.
It is embedded as an association list in which `insert` overwrites the value
stored at an existing key, `remove` deletes the first (and, in every
reachable state, only) entry at the key and returns the removed value, and
`contains_key` tests key membership. -/

/-- Insert for the TrieMap model (TrieMap.insert): overwrite the value at the key when present, otherwise
append a new entry. -/
def trieInsert (k : Nat) (v : Entity) : List (Nat × Entity) → List (Nat × Entity)
  | [] => [(k, v)]
  | (k', v') :: m => if k = k' then (k, v) :: m else (k', v') :: trieInsert k v m

/-- Membership test for the TrieMap model (TrieMap.contains_key). -/
def trieContains (k : Nat) (m : List (Nat × Entity)) : Bool :=
  m.any (fun p => p.1 = k)

/-- Removal for the TrieMap model (TrieMap.remove): return the removed value (if any) together with the map
after removal. -/
def trieRemove (k : Nat) : List (Nat × Entity) → Option Entity × List (Nat × Entity)
  | [] => (none, [])
  | (k', v') :: m =>
    if k = k' then (some v', m)
    else ((trieRemove k m).1, (k', v') :: (trieRemove k m).2)

/-- Key sets: the keys of an association list. -/
def trieKeys (m : List (Nat × Entity)) : List Nat := m.map Prod.fst

/-- Invariant of a well-formed map: no duplicate keys. -/
def keysNodup (m : List (Nat × Entity)) : Prop := (trieKeys m).Nodup

/-! ### InteractSystem (src/system/interactsystem.rs)

The struct holds two interested maps and the two aspects.  The inner
`InteractProcess` routine is replaced by a trace of the notifications
forwarded to it, which is what the claims are about. -/

/-- InteractSystem state: two interested sets keyed by entity identity and
the two aspect predicates (`Aspect::check` applied to an entity and the
world). -/
structure InteractSystem (World : Type) where
  interested_a : List (Nat × Entity)
  interested_b : List (Nat × Entity)
  aspect_a : Entity → World → Bool
  aspect_b : Entity → World → Bool

/-- Constructor (InteractSystem::new) with empty interested sets. -/
def InteractSystem.new {World : Type} (aspect_a aspect_b : Entity → World → Bool) :
    InteractSystem World :=
  { interested_a := [], interested_b := [], aspect_a := aspect_a, aspect_b := aspect_b }

/-- Lifecycle method activated of InteractSystem (lines 51-63): for each aspect that matches,
insert the entity into that aspect's interested map and forward `activated`
to the inner routine. -/
def InteractSystem.activated {World : Type} (s : InteractSystem World)
    (entity : Entity) (world : World) : InteractSystem World × List Ev :=
  let (s1, e1) :=
    if s.aspect_a entity world then
      ({ s with interested_a := trieInsert entity.id entity s.interested_a },
        [Ev.activated])
    else (s, [])
  let (s2, e2) :=
    if s1.aspect_b entity world then
      ({ s1 with interested_b := trieInsert entity.id entity s1.interested_b },
        [Ev.activated])
    else (s1, [])
  (s2, e1 ++ e2)

/-- Lifecycle method reactivated of InteractSystem (lines 65-101): for each interested map
independently, diff current membership against the aspect's verdict. -/
def InteractSystem.reactivated {World : Type} (s : InteractSystem World)
    (entity : Entity) (world : World) : InteractSystem World × List Ev :=
  let (s1, e1) :=
    if trieContains entity.id s.interested_a then
      if s.aspect_a entity world then (s, [Ev.reactivated])
      else ({ s with interested_a := (trieRemove entity.id s.interested_a).2 },
        [Ev.deactivated])
    else if s.aspect_a entity world then
      ({ s with interested_a := trieInsert entity.id entity s.interested_a },
        [Ev.activated])
    else (s, [])
  let (s2, e2) :=
    if trieContains entity.id s1.interested_b then
      if s1.aspect_b entity world then (s1, [Ev.reactivated])
      else ({ s1 with interested_b := (trieRemove entity.id s1.interested_b).2 },
        [Ev.deactivated])
    else if s1.aspect_b entity world then
      ({ s1 with interested_b := trieInsert entity.id entity s1.interested_b },
        [Ev.activated])
    else (s1, [])
  (s2, e1 ++ e2)

/-- Lifecycle method deactivated of InteractSystem (lines 103-113): remove the entity from each
map; when the removal actually removed a value, forward `deactivated`. -/
def InteractSystem.deactivated {World : Type} (s : InteractSystem World)
    (entity : Entity) (_world : World) : InteractSystem World × List Ev :=
  let (s1, e1) :=
    if (trieRemove entity.id s.interested_a).1.isSome then
      ({ s with interested_a := (trieRemove entity.id s.interested_a).2 },
        [Ev.deactivated])
    else (s, [])
  let (s2, e2) :=
    if (trieRemove entity.id s1.interested_b).1.isSome then
      ({ s1 with interested_b := (trieRemove entity.id s1.interested_b).2 },
        [Ev.deactivated])
    else (s1, [])
  (s2, e1 ++ e2)

/-! ### Aspect check (aspect! macro, src/lib.rs lines 208-242)

The macro expands to the closure
`(en.has(all_1) && ... && true) && !(en.has(none_1) || ... || false)`,
embedded as folds over the two field lists with the same chain shapes. -/

/-- Body of the closure produced by `aspect!`, over an abstract has-component
test: the conjunction chain over the all set terminated by `true`, conjoined
with the negated disjunction chain over the none set terminated by `false`. -/
def aspectCheck {α : Type} (allSet noneSet : List α) (has : α → Bool) : Bool :=
  (allSet.foldr (fun f acc => has f && acc) true) &&
    !(noneSet.foldr (fun f acc => has f || acc) false)

/-! ### Aspect evaluation with explicit state threading

To express that evaluating an aspect never mutates storage, the closure body
is re-run in a form where every `en.has(&co.field)` call explicitly consumes
and returns the component-manager state, with Rust's short-circuit `&&`/`||`
evaluation preserved. -/

/-- Conjunction chain `en.has(f1) && ... && true` with the state threaded
through each has call; `&&` short-circuits as in Rust. -/
def allHasSt {σ α : Type} (hasOp : σ → α → Bool × σ) : List α → σ → Bool × σ
  | [], st => (true, st)
  | f :: fs, st =>
    match hasOp st f with
    | (false, st1) => (false, st1)
    | (true, st1) => allHasSt hasOp fs st1

/-- Disjunction chain `en.has(f1) || ... || false` with the state threaded
through each has call; `||` short-circuits as in Rust. -/
def anyHasSt {σ α : Type} (hasOp : σ → α → Bool × σ) : List α → σ → Bool × σ
  | [], st => (false, st)
  | f :: fs, st =>
    match hasOp st f with
    | (true, st1) => (true, st1)
    | (false, st1) => anyHasSt hasOp fs st1

/-- State-threaded run of the `aspect!` closure body
`(all chain) && !(none chain)`; the outer `&&` short-circuits, so the none
chain is evaluated only when the all chain yields true. -/
def aspectCheckSt {σ α : Type} (allSet noneSet : List α) (hasOp : σ → α → Bool × σ)
    (st : σ) : Bool × σ :=
  match allHasSt hasOp allSet st with
  | (false, st1) => (false, st1)
  | (true, st1) =>
    match anyHasSt hasOp noneSet st1 with
    | (n, st2) => (!n, st2)

/-! ### Component storage (components! macro, src/lib.rs lines 113-148)

The `component` module itself is not under src/; its storage semantics are
taken from the specification. -/

/-- Modelled from the spec: the `component` module (ComponentList) is not
under src/.  Both backing strategies expose the same semantics: zero-or-one
value of the component type per entity identity. -/
def ComponentList (α : Type) : Type := Nat → Option α

/-- Modelled from the spec: `remove(entity) -> removed value if any`,
deleting the entity's entry from the list. -/
def ComponentList.remove {α : Type} (c : ComponentList α) (e : Nat) :
    Option α × ComponentList α :=
  (c e, fun k => if k = e then none else c k)

/-- Modelled from the spec: `has(entity) -> boolean`, a pure presence test
that does not change the list. -/
def ComponentList.has {α : Type} (c : ComponentList α) (e : Nat) : Bool :=
  (c e).isSome

/-- Modelled from the spec: `insert(entity, value) -> previous value if
any`. -/
def ComponentList.insert {α : Type} (c : ComponentList α) (e : Nat) (v : α) :
    Option α × ComponentList α :=
  (c e, fun k => if k = e then some v else c k)

/-- Modelled from the spec: `get(entity) -> copy of value if present`. -/
def ComponentList.get {α : Type} (c : ComponentList α) (e : Nat) : Option α :=
  c e

/-- Purge operation remove_all generated by `components!` (lines 140-145):
one `self.field.remove(entity)` statement per declared component list, the
returned value discarded.  A manager with any number of declared fields is
represented by the list of its component lists. -/
def remove_all {α : Type} (lists : List (ComponentList α)) (e : Nat) :
    List (ComponentList α) :=
  lists.map (fun c => (c.remove e).2)

/-! ### EntityData gateway (src/lib.rs lines 84-111)

The impl block for `EntityData` exposes exactly three operations on a
component list: `get` (copy out), `borrow` (mutable reference to the stored
value, modelled as applying an arbitrary update function to it), and `has`.
There is no insert or remove operation. -/

/-- Operations available on a `ComponentList` through an `EntityData`
handle: exactly the three methods of the impl block. `borrowWith f` stands
for obtaining `borrow`'s mutable reference and writing through it, replacing
the stored value by `f` of it. -/
inductive EntityDataOp (α : Type) where
  | get
  | borrowWith (f : α → α)
  | has

/-- Effect of an `EntityData` operation on the component list state. `get`
and `has` take the list by shared reference; `borrow` can only update the
value already present for the entity. -/
def runEntityDataOp {α : Type} (op : EntityDataOp α) (e : Nat)
    (c : ComponentList α) : ComponentList α :=
  match op with
  | .get => c
  | .borrowWith f => fun k => if k = e then (c e).map f else c k
  | .has => c

/-! ### SystemManager (systems! macro, src/lib.rs lines 150-206)

The generated manager holds one field per registered system and expands each
manager method into one statement per field, in field declaration order.
Each system is represented by its `is_active` flag; the manager state is the
list of those flags in registration order, and each method is embedded as
the trace of field indices whose system receives the corresponding call. -/

/-- Fields receiving `activated` (lines 175-180): every field, in order. -/
def activatedTrace : List Bool → Nat → List Nat
  | [], _ => []
  | _ :: fs, i => i :: activatedTrace fs (i + 1)

/-- Fields receiving `reactivated` (lines 182-187): every field, in order. -/
def reactivatedTrace : List Bool → Nat → List Nat
  | [], _ => []
  | _ :: fs, i => i :: reactivatedTrace fs (i + 1)

/-- Fields receiving `deactivated` (lines 189-194): every field, in order. -/
def deactivatedTrace : List Bool → Nat → List Nat
  | [], _ => []
  | _ :: fs, i => i :: deactivatedTrace fs (i + 1)

/-- Fields receiving `process` from `update` (lines 196-203): per field, in
order, `if self.field.is_active() { self.field.process(co); }`. -/
def updateTrace : List Bool → Nat → List Nat
  | [], _ => []
  | f :: fs, i => (if f then [i] else []) ++ updateTrace fs (i + 1)

/-! ### Lifecycle event sequences over an InteractSystem (for the
no-duplicate-identities invariant). -/

/-- World-issued lifecycle event, carrying the world state observed by the
aspect checks during that event. -/
inductive LifeEvent (World : Type) where
  | activated (entity : Entity) (world : World)
  | reactivated (entity : Entity) (world : World)
  | deactivated (entity : Entity) (world : World)

/-- Apply one lifecycle event to an InteractSystem, discarding the forwarded
notifications. -/
def stepEvent {World : Type} (s : InteractSystem World) :
    LifeEvent World → InteractSystem World
  | .activated e w => (s.activated e w).1
  | .reactivated e w => (s.reactivated e w).1
  | .deactivated e w => (s.deactivated e w).1

/-- Run a sequence of lifecycle events from a given InteractSystem state. -/
def runEvents {World : Type} (s : InteractSystem World)
    (evs : List (LifeEvent World)) : InteractSystem World :=
  evs.foldl stepEvent s

/-! ### Helper lemmas about the TrieMap model -/

theorem trieContains_cons (k : Nat) (p : Nat × Entity) (m : List (Nat × Entity)) :
    trieContains k (p :: m) = (decide (p.1 = k) || trieContains k m) := by
  simp [trieContains]

theorem trieContains_eq_mem (k : Nat) (m : List (Nat × Entity)) :
    trieContains k m = true ↔ k ∈ trieKeys m := by
  simp [trieContains, trieKeys]

theorem trieKeys_trieInsert (k : Nat) (v : Entity) (m : List (Nat × Entity)) :
    trieKeys (trieInsert k v m) =
      if trieContains k m then trieKeys m else trieKeys m ++ [k] := by
  induction m with
  | nil => simp [trieInsert, trieKeys, trieContains]
  | cons p m ih =>
    obtain ⟨k', v'⟩ := p
    by_cases h : k = k'
    · subst h; simp [trieInsert, trieKeys, trieContains_cons]
    · have h' : k' ≠ k := Ne.symm h
      simp only [trieInsert, if_neg h, trieKeys, List.map_cons, trieContains_cons, h',
        decide_eq_true_eq, false_or] at *
      rw [ih]
      cases hc : trieContains k m <;> simp [hc]

theorem trieContains_trieInsert_self (k : Nat) (v : Entity) (m : List (Nat × Entity)) :
    trieContains k (trieInsert k v m) = true := by
  rw [trieContains_eq_mem, trieKeys_trieInsert]
  cases hc : trieContains k m
  · simp
  · simpa using (trieContains_eq_mem k m).mp hc

theorem keysNodup_trieInsert (k : Nat) (v : Entity) (m : List (Nat × Entity))
    (hm : keysNodup m) : keysNodup (trieInsert k v m) := by
  simp only [keysNodup] at *
  rw [trieKeys_trieInsert]
  cases hc : trieContains k m
  · have hk : k ∉ trieKeys m := by
      intro hmem
      have := (trieContains_eq_mem k m).mpr hmem
      simp [hc] at this
    simp [List.nodup_append, hm, hk]
  · simpa using hm

theorem trieRemove_snd_sublist (k : Nat) (m : List (Nat × Entity)) :
    (trieRemove k m).2.Sublist m := by
  induction m with
  | nil => simp [trieRemove]
  | cons p m ih =>
    obtain ⟨k', v'⟩ := p
    by_cases h : k = k'
    · subst h
      simp only [trieRemove, if_pos rfl]
      exact List.sublist_cons_self _ _
    · simpa [trieRemove, h] using List.Sublist.cons₂ (k', v') ih

theorem keysNodup_trieRemove (k : Nat) (m : List (Nat × Entity))
    (hm : keysNodup m) : keysNodup (trieRemove k m).2 :=
  List.Nodup.sublist (List.Sublist.map Prod.fst (trieRemove_snd_sublist k m)) hm

theorem trieRemove_fst_isSome (k : Nat) (m : List (Nat × Entity)) :
    (trieRemove k m).1.isSome = trieContains k m := by
  induction m with
  | nil => rfl
  | cons p m ih =>
    obtain ⟨k', v'⟩ := p
    by_cases h : k = k'
    · subst h; simp [trieRemove, trieContains_cons]
    · have h' : k' ≠ k := Ne.symm h
      simp [trieRemove, h, trieContains_cons, h', ih]

theorem trieRemove_of_not_contains (k : Nat) (m : List (Nat × Entity))
    (h : trieContains k m = false) : trieRemove k m = (none, m) := by
  induction m with
  | nil => rfl
  | cons p m ih =>
    obtain ⟨k', v'⟩ := p
    rw [trieContains_cons] at h
    simp only [Bool.or_eq_false_iff, decide_eq_false_iff_not] at h
    have hne : ¬(k = k') := fun he => h.1 he.symm
    simp [trieRemove, hne, ih h.2]

theorem trieContains_trieRemove_self (k : Nat) (m : List (Nat × Entity))
    (hm : keysNodup m) : trieContains k (trieRemove k m).2 = false := by
  induction m with
  | nil => rfl
  | cons p m ih =>
    obtain ⟨k', v'⟩ := p
    simp only [keysNodup, trieKeys, List.map_cons, List.nodup_cons] at hm
    by_cases h : k = k'
    · subst h
      simp only [trieRemove, if_pos rfl]
      rw [Bool.eq_false_iff]
      intro hc
      exact hm.1 (by simpa [trieKeys] using (trieContains_eq_mem k m).mp hc)
    · have h' : k' ≠ k := Ne.symm h
      have hm2 : keysNodup m := by simpa [keysNodup, trieKeys] using hm.2
      simp [trieRemove, h, trieContains_cons, h', ih hm2]

theorem trieContains_trieRemove_ne (a k : Nat) (m : List (Nat × Entity))
    (h : a ≠ k) : trieContains a (trieRemove k m).2 = trieContains a m := by
  induction m with
  | nil => rfl
  | cons p m ih =>
    obtain ⟨k', v'⟩ := p
    by_cases hk : k = k'
    · subst hk
      have h' : k ≠ a := Ne.symm h
      simp [trieRemove, trieContains_cons, h']
    · simp [trieRemove, hk, trieContains_cons, ih]

/-! ### Helper lemmas about the aspect chains -/

theorem foldr_and_eq_all {α : Type} (l : List α) (has : α → Bool) :
    l.foldr (fun f acc => has f && acc) true = l.all has := by
  induction l with
  | nil => rfl
  | cons f fs ih => simp [List.all_cons, ih]

theorem foldr_or_eq_any {α : Type} (l : List α) (has : α → Bool) :
    l.foldr (fun f acc => has f || acc) false = l.any has := by
  induction l with
  | nil => rfl
  | cons f fs ih => simp [List.any_cons, ih]

theorem aspectCheck_eq_all_any {α : Type} (allSet noneSet : List α) (has : α → Bool) :
    aspectCheck allSet noneSet has = (allSet.all has && !(noneSet.any has)) := by
  rw [aspectCheck, foldr_and_eq_all, foldr_or_eq_any]

theorem allHasSt_pure {σ α : Type} (v : σ → α → Bool) (l : List α) (st : σ) :
    allHasSt (fun st f => (v st f, st)) l st = (l.all (fun f => v st f), st) := by
  induction l with
  | nil => rfl
  | cons f fs ih => cases h : v st f <;> simp [allHasSt, h, ih, List.all_cons]

theorem anyHasSt_pure {σ α : Type} (v : σ → α → Bool) (l : List α) (st : σ) :
    anyHasSt (fun st f => (v st f, st)) l st = (l.any (fun f => v st f), st) := by
  induction l with
  | nil => rfl
  | cons f fs ih => cases h : v st f <;> simp [anyHasSt, h, ih, List.any_cons]

theorem aspectCheckSt_pure {σ α : Type} (allSet noneSet : List α) (v : σ → α → Bool)
    (st : σ) :
    aspectCheckSt allSet noneSet (fun st f => (v st f, st)) st =
      (allSet.all (fun f => v st f) && !(noneSet.any (fun f => v st f)), st) := by
  rw [aspectCheckSt, allHasSt_pure]
  cases hall : allSet.all (fun f => v st f) <;> simp [anyHasSt_pure]

/-! ### C4, C7, C9, C10: storage and aspect claims -/

/-- C4: an aspect built by `aspect!` from an all set and a none set checks as
the conjunction of has-component over the all set AND NOT the disjunction of
has-component over the none set; with all set {A, B} and none set {C} it is
true exactly when the entity has A, has B and lacks C (all 8 combinations of
the three has-results, covered by quantifying over the has function); with
both sets empty it is true for every entity. -/
theorem aspect_check_all_none_semantics {α : Type} (allSet noneSet : List α)
    (has : α → Bool) :
    (aspectCheck allSet noneSet has = (allSet.all has && !(noneSet.any has)))
    ∧ (∀ hasC : Nat → Bool,
        aspectCheck [0, 1] [2] hasC = (hasC 0 && hasC 1 && !(hasC 2)))
    ∧ (∀ hasE : α → Bool, aspectCheck ([] : List α) [] hasE = true) := by
  refine ⟨aspectCheck_eq_all_any allSet noneSet has, ?_, ?_⟩
  · intro hasC
    cases h0 : hasC 0 <;> cases h1 : hasC 1 <;> cases h2 : hasC 2 <;>
      simp [aspectCheck, h0, h1, h2]
  · intro hasE
    rfl

/-- C7: remove_all generated by `components!` removes the entity's value from
every component list contained in the manager, so afterwards `has` is false
for that entity in every contained list. -/
theorem remove_all_purges_every_list {α : Type} (lists : List (ComponentList α))
    (e : Nat) :
    (remove_all lists e).all (fun c => !(ComponentList.has c e)) = true := by
  induction lists with
  | nil => rfl
  | cons c cs ih =>
    simp only [remove_all, List.map_cons, List.all_cons, ComponentList.remove,
      ComponentList.has, if_pos rfl, Option.isSome_none, Bool.not_false,
      Bool.true_and]
    exact ih

/-- C9: evaluating an aspect's check never mutates the component storage
state: the state after the state-threaded run of the `aspect!` closure body
equals the state before, the boolean computed agrees with the pure
`aspectCheck`, and re-evaluating on the resulting state returns the same
boolean. -/
theorem aspect_check_is_pure {α β : Type} (allSet noneSet : List α) (en : Nat)
    (co : α → ComponentList β) :
    ((aspectCheckSt allSet noneSet
        (fun st f => (ComponentList.has (st f) en, st)) co).2 = co)
    ∧ ((aspectCheckSt allSet noneSet
        (fun st f => (ComponentList.has (st f) en, st)) co).1 =
        aspectCheck allSet noneSet (fun f => ComponentList.has (co f) en))
    ∧ ((aspectCheckSt allSet noneSet
        (fun st f => (ComponentList.has (st f) en, st))
        ((aspectCheckSt allSet noneSet
          (fun st f => (ComponentList.has (st f) en, st)) co).2)).1 =
        (aspectCheckSt allSet noneSet
          (fun st f => (ComponentList.has (st f) en, st)) co).1) := by
  have h := aspectCheckSt_pure allSet noneSet
    (fun (st : α → ComponentList β) f => ComponentList.has (st f) en) co
  refine ⟨by rw [h], ?_, ?_⟩
  · rw [h, aspectCheck_eq_all_any]
  · simp [h]

/-- C10: the EntityData handle passed to lifecycle callbacks exposes only
get, borrow and has on a component list; each of these operations leaves the
set of component types the entity possesses unchanged — get and has leave
the list untouched, and borrow can only update the value already present in
place, so `has` is unchanged for every entity after any EntityData
operation. -/
theorem entitydata_ops_preserve_composition {α : Type} (op : EntityDataOp α)
    (e k : Nat) (c : ComponentList α) :
    (ComponentList.has (runEntityDataOp op e c) k = ComponentList.has c k)
    ∧ (runEntityDataOp EntityDataOp.get e c = c)
    ∧ (runEntityDataOp EntityDataOp.has e c = c) := by
  refine ⟨?_, rfl, rfl⟩
  cases op with
  | get => rfl
  | has => rfl
  | borrowWith f =>
    by_cases h : k = e
    · subst h
      simp [runEntityDataOp, ComponentList.has]
    · simp [runEntityDataOp, ComponentList.has, h]

/-! ### C1-C3, C8: InteractSystem claims -/

/-- C1: InteractSystem::activated evaluates aspect A and aspect B
independently; for each matching aspect the entity is inserted into that
aspect's interested set and one `activated` notification is forwarded to the
inner routine; an entity matching both aspects fires exactly two `activated`
forwards and is in both sets afterwards, and an entity matching neither is
added to neither set and triggers no forward. -/
theorem interact_activated_per_aspect {World : Type} (s : InteractSystem World)
    (entity : Entity) (world : World) :
    ((s.activated entity world).1.interested_a =
      (if s.aspect_a entity world then trieInsert entity.id entity s.interested_a
       else s.interested_a))
    ∧ ((s.activated entity world).1.interested_b =
      (if s.aspect_b entity world then trieInsert entity.id entity s.interested_b
       else s.interested_b))
    ∧ ((s.activated entity world).2 =
      (if s.aspect_a entity world then [Ev.activated] else []) ++
      (if s.aspect_b entity world then [Ev.activated] else []))
    ∧ (s.aspect_a entity world = true → s.aspect_b entity world = true →
      (s.activated entity world).2 = [Ev.activated, Ev.activated] ∧
      trieContains entity.id (s.activated entity world).1.interested_a = true ∧
      trieContains entity.id (s.activated entity world).1.interested_b = true)
    ∧ (s.aspect_a entity world = false → s.aspect_b entity world = false →
      (s.activated entity world).1 = s ∧ (s.activated entity world).2 = []) := by
  cases ha : s.aspect_a entity world <;> cases hb : s.aspect_b entity world <;>
    simp [InteractSystem.activated, ha, hb, trieContains_trieInsert_self]

/-- Witness for C1: with both aspects constantly true, activating entity 5 on
a fresh system forwards two `activated` notifications; with both constantly
false, the state is unchanged. -/
theorem interact_activated_per_aspect_witness :
    (((InteractSystem.new (fun (_ : Entity) (_ : Unit) => true)
        (fun _ _ => true)).activated ⟨5⟩ ()).2 = [Ev.activated, Ev.activated])
    ∧ (((InteractSystem.new (fun (_ : Entity) (_ : Unit) => false)
        (fun _ _ => false)).activated ⟨5⟩ ()).1 =
      InteractSystem.new (fun _ _ => false) (fun _ _ => false)) :=
  ⟨((interact_activated_per_aspect
      (InteractSystem.new (fun _ _ => true) (fun _ _ => true)) ⟨5⟩ ()).2.2.2.1
      rfl rfl).1,
   ((interact_activated_per_aspect
      (InteractSystem.new (fun _ _ => false) (fun _ _ => false)) ⟨5⟩ ()).2.2.2.2
      rfl rfl).1⟩

/-- C2: InteractSystem::reactivated applies the four-case membership diff to
each of the two interested sets independently within the same call: member
and still matching forwards `reactivated` with membership unchanged; member
and no longer matching is removed with `deactivated` forwarded; non-member
now matching is added with `activated` forwarded; non-member not matching is
a no-op for that set.  Both set updates read the state as it was at the
start of the call, so one call can add the entity to set A while removing it
from set B. -/
theorem interact_reactivated_diff {World : Type} (s : InteractSystem World)
    (entity : Entity) (world : World) :
    ((s.reactivated entity world).1.interested_a =
      (if trieContains entity.id s.interested_a then
        (if s.aspect_a entity world then s.interested_a
         else (trieRemove entity.id s.interested_a).2)
       else
        (if s.aspect_a entity world then trieInsert entity.id entity s.interested_a
         else s.interested_a)))
    ∧ ((s.reactivated entity world).1.interested_b =
      (if trieContains entity.id s.interested_b then
        (if s.aspect_b entity world then s.interested_b
         else (trieRemove entity.id s.interested_b).2)
       else
        (if s.aspect_b entity world then trieInsert entity.id entity s.interested_b
         else s.interested_b)))
    ∧ ((s.reactivated entity world).2 =
      (if trieContains entity.id s.interested_a then
        (if s.aspect_a entity world then [Ev.reactivated] else [Ev.deactivated])
       else
        (if s.aspect_a entity world then [Ev.activated] else [])) ++
      (if trieContains entity.id s.interested_b then
        (if s.aspect_b entity world then [Ev.reactivated] else [Ev.deactivated])
       else
        (if s.aspect_b entity world then [Ev.activated] else [])))
    ∧ (trieContains entity.id s.interested_a = false →
       s.aspect_a entity world = true →
       trieContains entity.id s.interested_b = true →
       s.aspect_b entity world = false →
       keysNodup s.interested_b →
       trieContains entity.id (s.reactivated entity world).1.interested_a = true ∧
       trieContains entity.id (s.reactivated entity world).1.interested_b = false) := by
  have key :
      ((s.reactivated entity world).1.interested_a =
        (if trieContains entity.id s.interested_a then
          (if s.aspect_a entity world then s.interested_a
           else (trieRemove entity.id s.interested_a).2)
         else
          (if s.aspect_a entity world then trieInsert entity.id entity s.interested_a
           else s.interested_a)))
      ∧ ((s.reactivated entity world).1.interested_b =
        (if trieContains entity.id s.interested_b then
          (if s.aspect_b entity world then s.interested_b
           else (trieRemove entity.id s.interested_b).2)
         else
          (if s.aspect_b entity world then trieInsert entity.id entity s.interested_b
           else s.interested_b)))
      ∧ ((s.reactivated entity world).2 =
        (if trieContains entity.id s.interested_a then
          (if s.aspect_a entity world then [Ev.reactivated] else [Ev.deactivated])
         else
          (if s.aspect_a entity world then [Ev.activated] else [])) ++
        (if trieContains entity.id s.interested_b then
          (if s.aspect_b entity world then [Ev.reactivated] else [Ev.deactivated])
         else
          (if s.aspect_b entity world then [Ev.activated] else []))) := by
    cases hma : trieContains entity.id s.interested_a <;>
      cases ha : s.aspect_a entity world <;>
        cases hmb : trieContains entity.id s.interested_b <;>
          cases hb : s.aspect_b entity world <;>
            simp [InteractSystem.reactivated, hma, ha, hmb, hb]
  refine ⟨key.1, key.2.1, key.2.2, ?_⟩
  intro hma ha hmb hb hnd
  constructor
  · rw [key.1]
    simp [hma, ha, trieContains_trieInsert_self]
  · rw [key.2.1]
    simp [hmb, hb, trieContains_trieRemove_self _ _ hnd]

/-- Witness for C2: on a system whose A set is empty and whose B set holds
entity 5, with aspect A true and aspect B false, one reactivation of entity
5 adds it to set A and removes it from set B. -/
theorem interact_reactivated_diff_witness :
    (trieContains 5
      ((InteractSystem.mk [] [(5, ⟨5⟩)]
        (fun (_ : Entity) (_ : Unit) => true) (fun _ _ => false)).reactivated ⟨5⟩ ()).1.interested_a
      = true)
    ∧ (trieContains 5
      ((InteractSystem.mk [] [(5, ⟨5⟩)]
        (fun (_ : Entity) (_ : Unit) => true) (fun _ _ => false)).reactivated ⟨5⟩ ()).1.interested_b
      = false) :=
  (interact_reactivated_diff
    (InteractSystem.mk [] [(5, ⟨5⟩)] (fun _ _ => true) (fun _ _ => false))
    ⟨5⟩ ()).2.2.2 rfl rfl (by decide) rfl (by simp [keysNodup, trieKeys])

/-- C3: InteractSystem::deactivated removes the entity from each interested
set in which it is currently present and forwards exactly one `deactivated`
notification per set it was removed from: two forwards when it was in both
sets, zero forwards and an unchanged state when it was in neither; entries
of other entities are untouched, and (in the duplicate-free states the maps
actually reach) the entity is absent from both sets afterwards. -/
theorem interact_deactivated_removes {World : Type} (s : InteractSystem World)
    (entity : Entity) (world : World) :
    ((s.deactivated entity world).2 =
      (if trieContains entity.id s.interested_a then [Ev.deactivated] else []) ++
      (if trieContains entity.id s.interested_b then [Ev.deactivated] else []))
    ∧ ((s.deactivated entity world).1.interested_a =
        (trieRemove entity.id s.interested_a).2)
    ∧ ((s.deactivated entity world).1.interested_b =
        (trieRemove entity.id s.interested_b).2)
    ∧ (keysNodup s.interested_a →
        trieContains entity.id (s.deactivated entity world).1.interested_a = false)
    ∧ (keysNodup s.interested_b →
        trieContains entity.id (s.deactivated entity world).1.interested_b = false)
    ∧ (∀ a : Nat, a ≠ entity.id →
        trieContains a (s.deactivated entity world).1.interested_a =
          trieContains a s.interested_a ∧
        trieContains a (s.deactivated entity world).1.interested_b =
          trieContains a s.interested_b)
    ∧ (trieContains entity.id s.interested_a = false →
       trieContains entity.id s.interested_b = false →
       (s.deactivated entity world).1 = s ∧ (s.deactivated entity world).2 = []) := by
  have key :
      ((s.deactivated entity world).2 =
        (if trieContains entity.id s.interested_a then [Ev.deactivated] else []) ++
        (if trieContains entity.id s.interested_b then [Ev.deactivated] else []))
      ∧ ((s.deactivated entity world).1.interested_a =
          (trieRemove entity.id s.interested_a).2)
      ∧ ((s.deactivated entity world).1.interested_b =
          (trieRemove entity.id s.interested_b).2) := by
    cases hma : trieContains entity.id s.interested_a <;>
      cases hmb : trieContains entity.id s.interested_b
    · simp [InteractSystem.deactivated, trieRemove_fst_isSome, hma, hmb,
        trieRemove_of_not_contains _ _ hma, trieRemove_of_not_contains _ _ hmb]
    · simp [InteractSystem.deactivated, trieRemove_fst_isSome, hma, hmb,
        trieRemove_of_not_contains _ _ hma]
    · simp [InteractSystem.deactivated, trieRemove_fst_isSome, hma, hmb,
        trieRemove_of_not_contains _ _ hmb]
    · simp [InteractSystem.deactivated, trieRemove_fst_isSome, hma, hmb]
  refine ⟨key.1, key.2.1, key.2.2, ?_, ?_, ?_, ?_⟩
  · intro hnd
    rw [key.2.1]
    exact trieContains_trieRemove_self _ _ hnd
  · intro hnd
    rw [key.2.2]
    exact trieContains_trieRemove_self _ _ hnd
  · intro a hne
    rw [key.2.1, key.2.2]
    exact ⟨trieContains_trieRemove_ne _ _ _ hne, trieContains_trieRemove_ne _ _ _ hne⟩
  · intro hma hmb
    refine ⟨?_, ?_⟩
    · simp [InteractSystem.deactivated, trieRemove_fst_isSome, hma, hmb]
    · rw [key.1, hma, hmb]
      simp

/-- Witness for C3: deactivating entity 5 that sits only in set B forwards
one `deactivated`; deactivating it on a fresh system changes nothing. -/
theorem interact_deactivated_removes_witness :
    (((InteractSystem.mk [] [(5, ⟨5⟩)]
        (fun (_ : Entity) (_ : Unit) => true) (fun _ _ => true)).deactivated ⟨5⟩ ()).2 =
      [Ev.deactivated])
    ∧ (trieContains 5
        ((InteractSystem.mk [] [(5, ⟨5⟩)]
          (fun (_ : Entity) (_ : Unit) => true) (fun _ _ => true)).deactivated ⟨5⟩ ()).1.interested_b
        = false)
    ∧ (((InteractSystem.new (fun (_ : Entity) (_ : Unit) => true)
        (fun _ _ => true)).deactivated ⟨5⟩ ()).1 =
      InteractSystem.new (fun _ _ => true) (fun _ _ => true)) :=
  ⟨(interact_deactivated_removes
      (InteractSystem.mk [] [(5, ⟨5⟩)] (fun _ _ => true) (fun _ _ => true))
      ⟨5⟩ ()).1,
   (interact_deactivated_removes
      (InteractSystem.mk [] [(5, ⟨5⟩)] (fun _ _ => true) (fun _ _ => true))
      ⟨5⟩ ()).2.2.2.2.1 (by simp [keysNodup, trieKeys]),
   ((interact_deactivated_removes
      (InteractSystem.new (fun _ _ => true) (fun _ _ => true))
      ⟨5⟩ ()).2.2.2.2.2.2 rfl rfl).1⟩

theorem stepEvent_nodup {World : Type} (s : InteractSystem World)
    (ev : LifeEvent World) (ha : keysNodup s.interested_a)
    (hb : keysNodup s.interested_b) :
    keysNodup (stepEvent s ev).interested_a ∧
      keysNodup (stepEvent s ev).interested_b := by
  cases ev with
  | activated e w =>
    refine ⟨?_, ?_⟩ <;>
      cases hA : s.aspect_a e w <;> cases hB : s.aspect_b e w <;>
        simp [stepEvent, InteractSystem.activated, hA, hB] <;>
          first
            | exact ha
            | exact hb
            | exact keysNodup_trieInsert _ _ _ ha
            | exact keysNodup_trieInsert _ _ _ hb
  | reactivated e w =>
    refine ⟨?_, ?_⟩ <;>
      cases hma : trieContains e.id s.interested_a <;>
        cases hA : s.aspect_a e w <;>
          cases hmb : trieContains e.id s.interested_b <;>
            cases hB : s.aspect_b e w <;>
              simp [stepEvent, InteractSystem.reactivated, hma, hA, hmb, hB] <;>
                first
                  | exact ha
                  | exact hb
                  | exact keysNodup_trieInsert _ _ _ ha
                  | exact keysNodup_trieInsert _ _ _ hb
                  | exact keysNodup_trieRemove _ _ ha
                  | exact keysNodup_trieRemove _ _ hb
  | deactivated e w =>
    refine ⟨?_, ?_⟩ <;>
      cases hma : trieContains e.id s.interested_a <;>
        cases hmb : trieContains e.id s.interested_b <;>
          simp [stepEvent, InteractSystem.deactivated, trieRemove_fst_isSome,
            hma, hmb] <;>
            first
              | exact ha
              | exact hb
              | exact keysNodup_trieRemove _ _ ha
              | exact keysNodup_trieRemove _ _ hb

theorem runEvents_nodup_aux {World : Type} (evs : List (LifeEvent World)) :
    ∀ s : InteractSystem World, keysNodup s.interested_a →
      keysNodup s.interested_b →
      keysNodup (runEvents s evs).interested_a ∧
        keysNodup (runEvents s evs).interested_b := by
  induction evs with
  | nil => exact fun s ha hb => ⟨ha, hb⟩
  | cons ev evs ih =>
    intro s ha hb
    have h := stepEvent_nodup s ev ha hb
    simpa only [runEvents, List.foldl_cons] using
      ih (stepEvent s ev) h.1 h.2

/-- C8: every InteractSystem reachable from a fresh system by any sequence
of lifecycle events keeps both interested sets free of duplicate entries per
entity identity: each set is a map keyed by the numeric identity, insertion
overwrites an existing entry, so no sequence of activations, reactivations
and deactivations can create two entries for one identity. -/
theorem interact_no_duplicate_identities {World : Type}
    (aspect_a aspect_b : Entity → World → Bool)
    (evs : List (LifeEvent World)) :
    keysNodup (runEvents (InteractSystem.new aspect_a aspect_b) evs).interested_a ∧
      keysNodup (runEvents (InteractSystem.new aspect_a aspect_b) evs).interested_b :=
  runEvents_nodup_aux evs (InteractSystem.new aspect_a aspect_b)
    (by simp [InteractSystem.new, keysNodup, trieKeys])
    (by simp [InteractSystem.new, keysNodup, trieKeys])

/-! ### C5, C6: SystemManager claims -/

theorem activatedTrace_eq_enumFrom (flags : List Bool) (k : Nat) :
    activatedTrace flags k = (List.enumFrom k flags).map Prod.fst := by
  induction flags generalizing k with
  | nil => rfl
  | cons f fs ih => simp [activatedTrace, ih]

theorem reactivatedTrace_eq_enumFrom (flags : List Bool) (k : Nat) :
    reactivatedTrace flags k = (List.enumFrom k flags).map Prod.fst := by
  induction flags generalizing k with
  | nil => rfl
  | cons f fs ih => simp [reactivatedTrace, ih]

theorem deactivatedTrace_eq_enumFrom (flags : List Bool) (k : Nat) :
    deactivatedTrace flags k = (List.enumFrom k flags).map Prod.fst := by
  induction flags generalizing k with
  | nil => rfl
  | cons f fs ih => simp [deactivatedTrace, ih]

theorem updateTrace_eq_enumFrom (flags : List Bool) (k : Nat) :
    updateTrace flags k =
      ((List.enumFrom k flags).filter (fun p => p.2)).map Prod.fst := by
  induction flags generalizing k with
  | nil => rfl
  | cons f fs ih =>
    cases f <;> simp [updateTrace, List.filter_cons, ih]

/-- C5: the update pass generated by `systems!` calls process exactly on the
fields whose is_active flag is true at the time of the call, in registration
order (the trace is the index-order filter of the flag list); a system whose
flag is false is skipped by update while the three lifecycle fan-outs are
still delivered to it. -/
theorem systems_update_respects_is_active (flags : List Bool) :
    (updateTrace flags 0 =
      ((List.enum flags).filter (fun p => p.2)).map Prod.fst)
    ∧ (∀ i : Nat, i < flags.length → flags.getD i false = false →
        i ∉ updateTrace flags 0
        ∧ i ∈ activatedTrace flags 0
        ∧ i ∈ reactivatedTrace flags 0
        ∧ i ∈ deactivatedTrace flags 0) := by
  have henum : List.enumFrom 0 flags = flags.enum := rfl
  constructor
  · rw [updateTrace_eq_enumFrom, henum]
  · intro i hi hflag
    have hget : flags[i]? = some false := by
      rw [List.getD_eq_getElem?_getD, List.getElem?_eq_getElem hi] at hflag
      rw [List.getElem?_eq_getElem hi]
      simpa using hflag
    refine ⟨?_, ?_, ?_, ?_⟩
    · rw [updateTrace_eq_enumFrom, henum]
      intro hmem
      obtain ⟨p, hp, hpi⟩ := List.mem_map.mp hmem
      obtain ⟨hpe, hps⟩ := List.mem_filter.mp hp
      have hpg := List.mem_enum_iff_getElem?.mp hpe
      rw [hpi, hget] at hpg
      have : p.2 = false := by injection hpg.symm
      rw [this] at hps
      exact Bool.false_ne_true hps
    · rw [activatedTrace_eq_enumFrom, henum, List.enum_map_fst]
      exact List.mem_range.mpr hi
    · rw [reactivatedTrace_eq_enumFrom, henum, List.enum_map_fst]
      exact List.mem_range.mpr hi
    · rw [deactivatedTrace_eq_enumFrom, henum, List.enum_map_fst]
      exact List.mem_range.mpr hi

/-- Witness for C5: with flags [true, false], update processes only field 0,
while field 1 still receives all three lifecycle fan-outs. -/
theorem systems_update_respects_is_active_witness :
    updateTrace [true, false] 0 =
      ((List.enum [true, false]).filter (fun p => p.2)).map Prod.fst
    ∧ (1 ∉ updateTrace [true, false] 0 ∧ 1 ∈ activatedTrace [true, false] 0
        ∧ 1 ∈ reactivatedTrace [true, false] 0
        ∧ 1 ∈ deactivatedTrace [true, false] 0) :=
  ⟨(systems_update_respects_is_active [true, false]).1,
   (systems_update_respects_is_active [true, false]).2 1 (by decide) rfl⟩

/-- C6: each lifecycle fan-out generated by `systems!` notifies every
registered system exactly once, in registration order, unconditionally with
respect to the enable flags (the trace is the full index range of the flag
list, whatever the flags are), and the three fan-outs use the same fixed
order. -/
theorem systems_lifecycle_fanout_order (flags : List Bool) :
    (activatedTrace flags 0 = List.range flags.length)
    ∧ (reactivatedTrace flags 0 = List.range flags.length)
    ∧ (deactivatedTrace flags 0 = List.range flags.length)
    ∧ (activatedTrace flags 0).Nodup
    ∧ (activatedTrace flags 0 = reactivatedTrace flags 0
        ∧ reactivatedTrace flags 0 = deactivatedTrace flags 0) := by
  have ha : activatedTrace flags 0 = List.range flags.length := by
    rw [activatedTrace_eq_enumFrom]
    rw [show List.enumFrom 0 flags = flags.enum from rfl, List.enum_map_fst]
  have hr : reactivatedTrace flags 0 = List.range flags.length := by
    rw [reactivatedTrace_eq_enumFrom]
    rw [show List.enumFrom 0 flags = flags.enum from rfl, List.enum_map_fst]
  have hd : deactivatedTrace flags 0 = List.range flags.length := by
    rw [deactivatedTrace_eq_enumFrom]
    rw [show List.enumFrom 0 flags = flags.enum from rfl, List.enum_map_fst]
  exact ⟨ha, hr, hd, ha ▸ List.nodup_range _, by rw [ha, hr], by rw [hr, hd]⟩
